import Mathlib

/-!
Verification of the KNCCI JGP TA microdata dashboard script (`app.py`).

The script loads a survey table, flags duplicate participant records by
national ID and phone number, classifies every record into one of five
duplicate categories, cleans the table at three strictness levels with a
first-occurrence-wins rule, and derives demographic features (age group,
disability status).

Shallow embedding conventions:
* a table is a `List Record`, in input row order;
* key cells (`national_id`, `phone_number`) are `Option Nat`: `none` models a
  missing (NaN) cell, which pandas `duplicated`/`drop_duplicates` compares as
  equal to another missing cell, exactly like `Option` equality;
* pandas `df.duplicated(subset, keep=False)` marks a row iff its key occurs
  more than once in the table, which is the `countP` test below;
* pandas `drop_duplicates(subset, keep='first')` is `dropDupBy`;
* the numeric `age` cell is `Option ℚ` (`none` = NaN after `to_numeric` with
  coercion).
-/

namespace KNCCI

/-- One survey row, restricted to the two key columns the duplicate logic
reads: `id_col = 'WHAT IS YOUR NATIONAL ID?'` and
`phone_col = 'Business phone number'`. A `none` value is a missing cell. -/
structure Record where
  national_id : Option Nat
  phone_number : Option Nat
deriving DecidableEq, Repr

/-- The labels `categorize_record` can return, including the dead fallback
branch `'Other'`. -/
inductive DuplicateCategory where
  | Unique
  | ExactDuplicate
  | SameIdDifferentPhone
  | SamePhoneDifferentId
  | ComplexDuplicate
  | Other
deriving DecidableEq, Repr

/-- The `(id, phone)` comparison key of a row. -/
def pairKey (r : Record) : Option Nat × Option Nat :=
  (r.national_id, r.phone_number)

/-- `df['_id_duplicated'] = df.duplicated(subset=[id_col], keep=False)`:
the row's national id occurs more than once in the table. -/
def id_duplicated (rs : List Record) (r : Record) : Bool :=
  decide (1 < rs.countP (fun s => decide (s.national_id = r.national_id)))

/-- `df['_phone_duplicated'] = df.duplicated(subset=[phone_col], keep=False)`:
the row's phone number occurs more than once in the table. -/
def phone_duplicated (rs : List Record) (r : Record) : Bool :=
  decide (1 < rs.countP (fun s => decide (s.phone_number = r.phone_number)))

/-- `df['_exact_duplicated'] = df.duplicated(subset=[id_col, phone_col], keep=False)`:
the row's `(id, phone)` pair occurs more than once in the table. -/
def exact_duplicated (rs : List Record) (r : Record) : Bool :=
  decide (1 < rs.countP (fun s => decide (pairKey s = pairKey r)))

/-- Literal embedding of `categorize_record(row)` from `app.py`, as a function
of the three row flags. The second branch is the source's
`exact_dup and not (id_dup and not exact_dup) and not (phone_dup and not exact_dup)`. -/
def categorize_record (id_dup phone_dup exact_dup : Bool) : DuplicateCategory :=
  if !id_dup && !phone_dup then
    DuplicateCategory.Unique
  else if exact_dup && !(id_dup && !exact_dup) && !(phone_dup && !exact_dup) then
    DuplicateCategory.ExactDuplicate
  else if id_dup && !phone_dup then
    DuplicateCategory.SameIdDifferentPhone
  else if phone_dup && !id_dup then
    DuplicateCategory.SamePhoneDifferentId
  else if id_dup && phone_dup then
    (if exact_dup then DuplicateCategory.ExactDuplicate
     else DuplicateCategory.ComplexDuplicate)
  else
    DuplicateCategory.Other

/-- `df['_duplicate_category'] = df.apply(categorize_record, axis=1)`:
the category of row `r` within table `rs`. -/
def classify (rs : List Record) (r : Record) : DuplicateCategory :=
  categorize_record (id_duplicated rs r) (phone_duplicated rs r) (exact_duplicated rs r)

/-- The five-way rule exactly as the spec words it (section 4.1 step 2):
`if neither id_dup nor phone_dup → Unique. Else if exact_dup → ExactDuplicate.
Else if id_dup and not phone_dup → SameIdDifferentPhone. Else if phone_dup and
not id_dup → SamePhoneDifferentId. Else → ComplexDuplicate.` -/
def specCategorize (id_dup phone_dup exact_dup : Bool) : DuplicateCategory :=
  if !id_dup && !phone_dup then
    DuplicateCategory.Unique
  else if exact_dup then
    DuplicateCategory.ExactDuplicate
  else if id_dup && !phone_dup then
    DuplicateCategory.SameIdDifferentPhone
  else if phone_dup && !id_dup then
    DuplicateCategory.SamePhoneDifferentId
  else
    DuplicateCategory.ComplexDuplicate

/-- Number of rows of `rs` that `classify` puts in category `c`. -/
def categoryCount (rs : List Record) (c : DuplicateCategory) : Nat :=
  rs.countP (fun r => decide (classify rs r = c))

lemma categorize_record_eq_spec (b1 b2 b3 : Bool) :
    categorize_record b1 b2 b3 = specCategorize b1 b2 b3 := by
  cases b1 <;> cases b2 <;> cases b3 <;> rfl

lemma categorize_record_ne_other (b1 b2 b3 : Bool) :
    categorize_record b1 b2 b3 ≠ DuplicateCategory.Other := by
  cases b1 <;> cases b2 <;> cases b3 <;> simp [categorize_record]

lemma classify_ne_other (rs : List Record) (r : Record) :
    classify rs r ≠ DuplicateCategory.Other :=
  categorize_record_ne_other _ _ _

/-- Claim C1: for every record set, the classifier assigns each record its
category by the spec's five-way rule applied to the three per-record flags
(`id_dup` = national id occurs more than once, `phone_dup` = phone occurs more
than once, `exact_dup` = the `(id, phone)` pair occurs more than once). -/
theorem classify_follows_five_way_rule (rs : List Record) (r : Record) :
    classify rs r =
      specCategorize (id_duplicated rs r) (phone_duplicated rs r) (exact_duplicated rs r) :=
  categorize_record_eq_spec _ _ _

lemma countP_five_categories (f : Record → DuplicateCategory)
    (h : ∀ r, f r ≠ DuplicateCategory.Other) (l : List Record) :
    l.countP (fun r => decide (f r = DuplicateCategory.Unique)) +
      l.countP (fun r => decide (f r = DuplicateCategory.ExactDuplicate)) +
      l.countP (fun r => decide (f r = DuplicateCategory.SameIdDifferentPhone)) +
      l.countP (fun r => decide (f r = DuplicateCategory.SamePhoneDifferentId)) +
      l.countP (fun r => decide (f r = DuplicateCategory.ComplexDuplicate)) = l.length := by
  induction l with
  | nil => simp
  | cons a t ih =>
    have ha := h a
    cases hfa : f a <;>
      first
        | exact absurd hfa ha
        | (simp only [List.countP_cons, List.length_cons, hfa, decide_eq_true_eq,
            if_true, if_false, reduceCtorEq, reduceIte]
           omega)

/-- Claim C2: every record lands in exactly one of the five duplicate
categories, so the five category counts sum to the table's length, and the
fallback label `'Other'` never occurs. -/
theorem category_counts_reconcile (rs : List Record) :
    categoryCount rs DuplicateCategory.Unique +
        categoryCount rs DuplicateCategory.ExactDuplicate +
        categoryCount rs DuplicateCategory.SameIdDifferentPhone +
        categoryCount rs DuplicateCategory.SamePhoneDifferentId +
        categoryCount rs DuplicateCategory.ComplexDuplicate = rs.length ∧
      ∀ r ∈ rs, classify rs r ≠ DuplicateCategory.Other := by
  refine ⟨?_, fun r _ => classify_ne_other rs r⟩
  exact countP_five_categories (classify rs) (classify_ne_other rs) rs

/-- Witness for C2, at the two-row table `[(id 1, phone 2), (id 1, phone 2)]`. -/
theorem category_counts_reconcile_witness :
    (categoryCount [⟨some 1, some 2⟩, ⟨some 1, some 2⟩] DuplicateCategory.Unique +
        categoryCount [⟨some 1, some 2⟩, ⟨some 1, some 2⟩] DuplicateCategory.ExactDuplicate +
        categoryCount [⟨some 1, some 2⟩, ⟨some 1, some 2⟩] DuplicateCategory.SameIdDifferentPhone +
        categoryCount [⟨some 1, some 2⟩, ⟨some 1, some 2⟩] DuplicateCategory.SamePhoneDifferentId +
        categoryCount [⟨some 1, some 2⟩, ⟨some 1, some 2⟩] DuplicateCategory.ComplexDuplicate
      = 2) ∧
      classify [⟨some 1, some 2⟩, ⟨some 1, some 2⟩] ⟨some 1, some 2⟩ ≠ DuplicateCategory.Other :=
  ⟨(category_counts_reconcile [⟨some 1, some 2⟩, ⟨some 1, some 2⟩]).1,
    (category_counts_reconcile [⟨some 1, some 2⟩, ⟨some 1, some 2⟩]).2
      ⟨some 1, some 2⟩ (by simp)⟩

/-- Claim C3: on the four-row input
`[(id 1, phone A), (id 1, phone A), (id 1, phone B), (id 2, phone B)]`
(with `A`, `B` encoded as `100`, `101`) the classifier labels the first two
rows `ExactDuplicate`, the third `ComplexDuplicate`, and the fourth
`SamePhoneDifferentId`. -/
theorem classify_worked_example :
    [Record.mk (some 1) (some 100), Record.mk (some 1) (some 100),
        Record.mk (some 1) (some 101), Record.mk (some 2) (some 101)].map
      (classify [Record.mk (some 1) (some 100), Record.mk (some 1) (some 100),
        Record.mk (some 1) (some 101), Record.mk (some 2) (some 101)]) =
    [DuplicateCategory.ExactDuplicate, DuplicateCategory.ExactDuplicate,
      DuplicateCategory.ComplexDuplicate, DuplicateCategory.SamePhoneDifferentId] := by
  decide

/-- Worker for pandas `drop_duplicates(subset, keep='first')`: scan the rows
in order, keep a row iff its key was not seen before, and record kept keys in
`seen`. -/
def dropDupByAux {α κ : Type} [DecidableEq κ] (key : α → κ) :
    List κ → List α → List α
  | _, [] => []
  | seen, r :: rest =>
    if key r ∈ seen then dropDupByAux key seen rest
    else r :: dropDupByAux key (key r :: seen) rest

/-- pandas `df.drop_duplicates(subset, keep='first')` with comparison key
`key`. -/
def dropDupBy {α κ : Type} [DecidableEq κ] (key : α → κ) (l : List α) : List α :=
  dropDupByAux key [] l

/-- `step1_df = df.drop_duplicates(subset=[id_col, phone_col], keep='first')`. -/
def step1_df (rs : List Record) : List Record :=
  dropDupBy pairKey rs

/-- `step2_df = step1_df.drop_duplicates(subset=[id_col], keep='first')`. -/
def step2_df (rs : List Record) : List Record :=
  dropDupBy (fun r => r.national_id) (step1_df rs)

/-- `step3_df = step2_df.drop_duplicates(subset=[phone_col], keep='first')`. -/
def step3_df (rs : List Record) : List Record :=
  dropDupBy (fun r => r.phone_number) (step2_df rs)

/-- The spec's `first occurrence wins` rule, from its words in section 4.2:
keep the first row bearing each key and drop every later row whose key
already occurred earlier. -/
def firstOccurrenceWins {α κ : Type} [DecidableEq κ] (key : α → κ) :
    List α → List α
  | [] => []
  | r :: rest =>
    r :: firstOccurrenceWins key (rest.filter (fun s => decide (key s ≠ key r)))
termination_by l => l.length
decreasing_by
  simp only [List.length_cons]
  exact Nat.lt_succ_of_le (List.length_filter_le _ _)

lemma firstOccurrenceWins_nil {α κ : Type} [DecidableEq κ] (key : α → κ) :
    firstOccurrenceWins key ([] : List α) = [] := by
  rw [firstOccurrenceWins]

lemma firstOccurrenceWins_cons {α κ : Type} [DecidableEq κ] (key : α → κ)
    (r : α) (rest : List α) :
    firstOccurrenceWins key (r :: rest) =
      r :: firstOccurrenceWins key (rest.filter (fun s => decide (key s ≠ key r))) := by
  rw [firstOccurrenceWins]

lemma dropDupByAux_sublist {α κ : Type} [DecidableEq κ] (key : α → κ) :
    ∀ (seen : List κ) (l : List α), (dropDupByAux key seen l).Sublist l := by
  intro seen l
  induction l generalizing seen with
  | nil => simp [dropDupByAux]
  | cons a t ih =>
    rw [dropDupByAux]
    by_cases h : key a ∈ seen
    · simp only [if_pos h]
      exact (ih seen).cons a
    · simp only [if_neg h]
      exact (ih (key a :: seen)).cons₂ a

lemma dropDupBy_sublist {α κ : Type} [DecidableEq κ] (key : α → κ) (l : List α) :
    (dropDupBy key l).Sublist l :=
  dropDupByAux_sublist key [] l

lemma dropDupByAux_eq_firstOccurrenceWins {α κ : Type} [DecidableEq κ]
    (key : α → κ) :
    ∀ (seen : List κ) (l : List α),
      dropDupByAux key seen l =
        firstOccurrenceWins key (l.filter (fun r => decide (key r ∉ seen))) := by
  intro seen l
  induction l generalizing seen with
  | nil => simp [dropDupByAux, firstOccurrenceWins_nil]
  | cons a t ih =>
    rw [dropDupByAux]
    by_cases h : key a ∈ seen
    · rw [if_pos h]
      have hf : (a :: t).filter (fun r => decide (key r ∉ seen)) =
          t.filter (fun r => decide (key r ∉ seen)) := by
        simp [h]
      rw [hf]
      exact ih seen
    · rw [if_neg h]
      have hf : (a :: t).filter (fun r => decide (key r ∉ seen)) =
          a :: t.filter (fun r => decide (key r ∉ seen)) := by
        simp [h]
      rw [hf, firstOccurrenceWins_cons, List.filter_filter]
      rw [ih (key a :: seen)]
      congr 1
      congr 1
      apply List.filter_congr
      intro r _
      by_cases h1 : key r = key a <;> by_cases h2 : key r ∈ seen <;> simp [h1, h2]

lemma dropDupBy_eq_firstOccurrenceWins {α κ : Type} [DecidableEq κ]
    (key : α → κ) (l : List α) :
    dropDupBy key l = firstOccurrenceWins key l := by
  rw [dropDupBy, dropDupByAux_eq_firstOccurrenceWins]
  congr 1
  exact List.filter_eq_self.mpr (fun a _ => by simp)

/-- Claim C4: the cleaning pipeline is the deterministic first-occurrence-wins
rule at three sequential strictness levels: level 1 deduplicates the raw table
on the exact `(id, phone)` pair, level 2 deduplicates level 1's output on the
id, level 3 deduplicates level 2's output on the phone; each level keeps the
first occurrence, operates only on the previous level's output, and preserves
input row order (each output is a sublist of its input). -/
theorem cleaning_pipeline_first_occurrence_wins (rs : List Record) :
    step1_df rs = firstOccurrenceWins pairKey rs ∧
      step2_df rs = firstOccurrenceWins (fun r => r.national_id) (step1_df rs) ∧
      step3_df rs = firstOccurrenceWins (fun r => r.phone_number) (step2_df rs) ∧
      (step1_df rs).Sublist rs ∧
      (step2_df rs).Sublist (step1_df rs) ∧
      (step3_df rs).Sublist (step2_df rs) :=
  ⟨dropDupBy_eq_firstOccurrenceWins _ rs,
    dropDupBy_eq_firstOccurrenceWins _ _,
    dropDupBy_eq_firstOccurrenceWins _ _,
    dropDupBy_sublist _ rs,
    dropDupBy_sublist _ _,
    dropDupBy_sublist _ _⟩

/-- Claim C5: record counts never increase along the cleaning pipeline:
`|step3| ≤ |step2| ≤ |step1| ≤ |raw|`. -/
theorem cleaning_counts_monotone (rs : List Record) :
    (step3_df rs).length ≤ (step2_df rs).length ∧
      (step2_df rs).length ≤ (step1_df rs).length ∧
      (step1_df rs).length ≤ rs.length :=
  ⟨(dropDupBy_sublist _ _).length_le,
    (dropDupBy_sublist _ _).length_le,
    (dropDupBy_sublist _ rs).length_le⟩

lemma dropDupByAux_key_nodup {α κ : Type} [DecidableEq κ] (key : α → κ) :
    ∀ (seen : List κ) (l : List α),
      ((dropDupByAux key seen l).map key).Nodup ∧
        ∀ r ∈ dropDupByAux key seen l, key r ∉ seen := by
  intro seen l
  induction l generalizing seen with
  | nil => simp [dropDupByAux]
  | cons a t ih =>
    rw [dropDupByAux]
    by_cases h : key a ∈ seen
    · rw [if_pos h]
      exact ih seen
    · rw [if_neg h]
      obtain ⟨hnd, hout⟩ := ih (key a :: seen)
      refine ⟨?_, ?_⟩
      · simp only [List.map_cons, List.nodup_cons]
        refine ⟨?_, hnd⟩
        intro hmem
        obtain ⟨r, hr, hkr⟩ := List.mem_map.mp hmem
        exact hout r hr (hkr ▸ List.mem_cons_self _ _)
      · intro r hr
        rcases List.mem_cons.mp hr with rfl | hr
        · exact h
        · exact fun hc => hout r hr (List.mem_cons_of_mem _ hc)

lemma dropDupBy_key_nodup {α κ : Type} [DecidableEq κ] (key : α → κ) (l : List α) :
    ((dropDupBy key l).map key).Nodup :=
  (dropDupByAux_key_nodup key [] l).1

/-- Claim C10: after the full three-step pipeline all national ids are
pairwise distinct and all phone numbers are pairwise distinct: step 3 only
deletes rows from step 2's output, so it cannot reintroduce an id collision
removed at step 2. -/
theorem step3_ids_and_phones_distinct (rs : List Record) :
    ((step3_df rs).map (fun r => r.national_id)).Nodup ∧
      ((step3_df rs).map (fun r => r.phone_number)).Nodup := by
  constructor
  · have h2 : ((step2_df rs).map (fun r => r.national_id)).Nodup :=
      dropDupBy_key_nodup _ _
    have hsub : (step3_df rs).Sublist (step2_df rs) := dropDupBy_sublist _ _
    exact h2.sublist (hsub.map _)
  · exact dropDupBy_key_nodup _ _

lemma two_le_countP_of_lt_positions {α : Type} (p : α → Bool) :
    ∀ (l : List α) (i j : Fin l.length), i.1 < j.1 →
      p (l.get i) = true → p (l.get j) = true → 2 ≤ l.countP p := by
  intro l
  induction l with
  | nil =>
    intro i
    exact absurd i.2 (by simp)
  | cons a t ih =>
    rintro ⟨iv, hi⟩ ⟨jv, hj⟩ hij hpi hpj
    have hij2 : iv < jv := hij
    cases jv with
    | zero => omega
    | succ jv =>
      have hjv : jv < t.length := Nat.lt_of_succ_lt_succ hj
      have hpj2 : p (t.get ⟨jv, hjv⟩) = true := hpj
      cases iv with
      | zero =>
        have hpa : p a = true := hpi
        have h1 : 0 < t.countP p :=
          List.countP_pos_iff.mpr ⟨t.get ⟨jv, hjv⟩, t.get_mem jv hjv, hpj2⟩
        rw [List.countP_cons, hpa, if_pos rfl]
        omega
      | succ iv =>
        have hiv : iv < t.length := Nat.lt_of_succ_lt_succ hi
        have h2 := ih ⟨iv, hiv⟩ ⟨jv, hjv⟩ (Nat.lt_of_succ_lt_succ hij2) hpi hpj2
        exact le_trans h2 ((List.sublist_cons_self a t).countP_le p)

lemma two_le_countP_of_ne_positions {α : Type} (p : α → Bool) (l : List α)
    (i j : Fin l.length) (hij : i ≠ j)
    (hpi : p (l.get i) = true) (hpj : p (l.get j) = true) : 2 ≤ l.countP p := by
  rcases Nat.lt_or_ge i.1 j.1 with h | h
  · exact two_le_countP_of_lt_positions p l i j h hpi hpj
  · have hlt : j.1 < i.1 := Nat.lt_of_le_of_ne h (fun hc => hij (Fin.ext hc.symm))
    exact two_le_countP_of_lt_positions p l j i hlt hpj hpi

/-- Claim C8: missing key cells compare as literal values in duplicate
detection: two rows at distinct positions that both have a missing
national id (resp. a missing phone number) are both flagged id-duplicated
(resp. phone-duplicated). -/
theorem missing_keys_flag_duplicates (rs : List Record) (i j : Fin rs.length)
    (hij : i ≠ j) :
    ((rs.get i).national_id = none → (rs.get j).national_id = none →
        id_duplicated rs (rs.get i) = true ∧ id_duplicated rs (rs.get j) = true) ∧
      ((rs.get i).phone_number = none → (rs.get j).phone_number = none →
        phone_duplicated rs (rs.get i) = true ∧ phone_duplicated rs (rs.get j) = true) := by
  constructor
  · intro hi hj
    have hcnt1 := two_le_countP_of_ne_positions
      (fun s => decide (s.national_id = (rs.get i).national_id)) rs i j hij
      (by simp) (by simp only [decide_eq_true_eq]; rw [hi, hj])
    have hcnt2 := two_le_countP_of_ne_positions
      (fun s => decide (s.national_id = (rs.get j).national_id)) rs i j hij
      (by simp only [decide_eq_true_eq]; rw [hi, hj]) (by simp)
    exact ⟨decide_eq_true (by omega), decide_eq_true (by omega)⟩
  · intro hi hj
    have hcnt1 := two_le_countP_of_ne_positions
      (fun s => decide (s.phone_number = (rs.get i).phone_number)) rs i j hij
      (by simp) (by simp only [decide_eq_true_eq]; rw [hi, hj])
    have hcnt2 := two_le_countP_of_ne_positions
      (fun s => decide (s.phone_number = (rs.get j).phone_number)) rs i j hij
      (by simp only [decide_eq_true_eq]; rw [hi, hj]) (by simp)
    exact ⟨decide_eq_true (by omega), decide_eq_true (by omega)⟩

/-- Witness for C8, on the table of two rows whose id and phone cells are all
missing. -/
theorem missing_keys_flag_duplicates_witness :
    id_duplicated [Record.mk none none, Record.mk none none] (Record.mk none none) = true ∧
      phone_duplicated [Record.mk none none, Record.mk none none] (Record.mk none none) = true := by
  have h := missing_keys_flag_duplicates [Record.mk none none, Record.mk none none]
    ⟨0, by decide⟩ ⟨1, by decide⟩ (by decide)
  exact ⟨(h.1 rfl rfl).1, (h.2 rfl rfl).1⟩

/-- Claim C6: every group of rows sharing one `(id, phone)` pair whose size is
at least 2 contributes all of its rows to the `ExactDuplicate` category. -/
theorem exact_duplicate_group_all_members (rs : List Record)
    (p : Option Nat × Option Nat)
    (h2 : 2 ≤ (rs.filter (fun r => decide (pairKey r = p))).length) :
    ∀ r ∈ rs, pairKey r = p → classify rs r = DuplicateCategory.ExactDuplicate := by
  intro r _ hp
  have hcount : rs.countP (fun s => decide (pairKey s = p)) =
      (rs.filter (fun s => decide (pairKey s = p))).length :=
    List.countP_eq_length_filter _ _
  have hex : 1 < rs.countP (fun s => decide (pairKey s = pairKey r)) := by
    rw [hp]
    omega
  have hid : 1 < rs.countP (fun s => decide (s.national_id = r.national_id)) := by
    refine lt_of_lt_of_le hex (List.countP_mono_left ?_)
    intro s _ hs
    simp only [decide_eq_true_eq, pairKey, Prod.mk.injEq] at hs
    simp [hs.1]
  have hph : 1 < rs.countP (fun s => decide (s.phone_number = r.phone_number)) := by
    refine lt_of_lt_of_le hex (List.countP_mono_left ?_)
    intro s _ hs
    simp only [decide_eq_true_eq, pairKey, Prod.mk.injEq] at hs
    simp [hs.2]
  rw [classify, id_duplicated, phone_duplicated, exact_duplicated,
    decide_eq_true hid, decide_eq_true hph, decide_eq_true hex]
  rfl

/-- Witness for C6, on the table of two identical rows `(id 1, phone 2)`. -/
theorem exact_duplicate_group_all_members_witness :
    2 ≤ ([Record.mk (some 1) (some 2), Record.mk (some 1) (some 2)].filter
        (fun r => decide (pairKey r = (some 1, some 2)))).length ∧
      classify [Record.mk (some 1) (some 2), Record.mk (some 1) (some 2)]
        (Record.mk (some 1) (some 2)) = DuplicateCategory.ExactDuplicate :=
  ⟨by decide,
    exact_duplicate_group_all_members
      [Record.mk (some 1) (some 2), Record.mk (some 1) (some 2)]
      (some 1, some 2) (by decide) (Record.mk (some 1) (some 2))
      (by decide) (by decide)⟩

/-- The labels `classify_age(x)` can return. `UnknownMissing` is the source's
`'Unknown/Missing'`, `Youth` is `'Youth (18-35)'`, `Adult` is `'Adult (36+)'`. -/
inductive AgeGroup where
  | UnknownMissing
  | Under18
  | Youth
  | Adult
deriving DecidableEq, Repr

/-- Literal embedding of `classify_age(x)` from `app.py`. The age cell is the
result of `pd.to_numeric(..., errors='coerce')`: `none` is NaN (`pd.isna`),
`some a` a numeric age. The source's final dead `else` branch is kept. -/
def classify_age (x : Option ℚ) : AgeGroup :=
  match x with
  | none => AgeGroup.UnknownMissing
  | some a =>
    if a < 18 then AgeGroup.Under18
    else if 18 ≤ a ∧ a ≤ 35 then AgeGroup.Youth
    else if 35 < a then AgeGroup.Adult
    else AgeGroup.UnknownMissing

/-- Claim C7: age 35 is `Youth (18-35)`, age 36 is `Adult (36+)`, a missing
age is `Unknown/Missing`; in general ages below 18 are `Under 18`, ages in
`[18, 35]` are `Youth (18-35)`, and ages above 35 are `Adult (36+)`. -/
theorem classify_age_boundaries :
    classify_age (some 35) = AgeGroup.Youth ∧
      classify_age (some 36) = AgeGroup.Adult ∧
      classify_age none = AgeGroup.UnknownMissing ∧
      (∀ a : ℚ, a < 18 → classify_age (some a) = AgeGroup.Under18) ∧
      (∀ a : ℚ, 18 ≤ a → a ≤ 35 → classify_age (some a) = AgeGroup.Youth) ∧
      (∀ a : ℚ, 35 < a → classify_age (some a) = AgeGroup.Adult) := by
  refine ⟨by decide, by decide, rfl, ?_, ?_, ?_⟩
  · intro a h
    simp [classify_age, h]
  · intro a h1 h2
    rw [classify_age]
    rw [if_neg (by linarith), if_pos ⟨h1, h2⟩]
  · intro a h
    rw [classify_age]
    rw [if_neg (by linarith), if_neg (by rintro ⟨h1, h2⟩; linarith), if_pos h]

/-- Witness for C7, at the concrete ages 10, 20 and 40. -/
theorem classify_age_boundaries_witness :
    classify_age (some 10) = AgeGroup.Under18 ∧
      classify_age (some 20) = AgeGroup.Youth ∧
      classify_age (some 40) = AgeGroup.Adult :=
  ⟨classify_age_boundaries.2.2.2.1 10 (by norm_num),
    classify_age_boundaries.2.2.2.2.1 20 (by norm_num) (by norm_num),
    classify_age_boundaries.2.2.2.2.2 40 (by norm_num)⟩

/-- The labels the `'PWD Status'` column can hold. -/
inductive PWDStatus where
  | Yes
  | No
  | Unspecified
deriving DecidableEq, Repr

/-- python `str.strip()` on the character list of a cell's text. -/
def stripChars (s : List Char) : List Char :=
  ((s.dropWhile Char.isWhitespace).reverse.dropWhile Char.isWhitespace).reverse

/-- python `str.lower()` on the character list of a cell's text. -/
def lowerChars (s : List Char) : List Char :=
  s.map Char.toLower

/-- python substring containment `pat in s`. -/
def containsSub (pat : List Char) : List Char → Bool
  | [] => pat.isEmpty
  | c :: t => pat.isPrefixOf (c :: t) || containsSub pat t

/-- The per-cell map of `df_clean[pwd_col].astype(str).str.strip().str.lower()
.apply(lambda x: 'Yes' if 'yes' in str(x) else ('No' if 'no' in str(x) else
'Unspecified'))`, on the stringified cell text `x`. -/
def pwdOfResponse (x : List Char) : PWDStatus :=
  let y := lowerChars (stripChars x)
  if containsSub ['y', 'e', 's'] y then PWDStatus.Yes
  else if containsSub ['n', 'o'] y then PWDStatus.No
  else PWDStatus.Unspecified

/-- A row of the cleaned table, restricted to the stringified disability
response cell read by the `'PWD Status'` derivation. -/
structure CleanRecord where
  disability_response : List Char
deriving DecidableEq, Repr

/-- The cleaned table together with whether the expected disability column
(`pwd_col`) is present in the input at all. -/
structure CleanTable where
  rows : List CleanRecord
  hasPwdCol : Bool
deriving DecidableEq, Repr

/-- The `'PWD Status'` column: `if pwd_col in df_clean.columns:` map each
response through the lambda, `else:` assign the scalar `'Unspecified'` to
every row. -/
def pwdStatusColumn (t : CleanTable) : List PWDStatus :=
  if t.hasPwdCol then t.rows.map (fun r => pwdOfResponse r.disability_response)
  else t.rows.map (fun _ => PWDStatus.Unspecified)

/-- Claim C9: when the expected disability column is absent, every row's
derived `'PWD Status'` is the placeholder `Unspecified`, and the derivation
still yields one status per row rather than aborting. -/
theorem missing_pwd_column_degrades (t : CleanTable) (h : t.hasPwdCol = false) :
    (∀ s ∈ pwdStatusColumn t, s = PWDStatus.Unspecified) ∧
      (pwdStatusColumn t).length = t.rows.length := by
  rw [pwdStatusColumn, h]
  simp

/-- Witness for C9, on a one-row table whose disability column is absent. -/
theorem missing_pwd_column_degrades_witness :
    (pwdStatusColumn (CleanTable.mk [CleanRecord.mk ['y', 'e', 's']] false)).length = 1 ∧
      PWDStatus.Unspecified ∈
        pwdStatusColumn (CleanTable.mk [CleanRecord.mk ['y', 'e', 's']] false) := by
  have h := missing_pwd_column_degrades (CleanTable.mk [CleanRecord.mk ['y', 'e', 's']] false) rfl
  exact ⟨h.2.trans rfl, by decide⟩

end KNCCI
